import Mathlib

/-!
Verification of the time-series alignment and rain-detection evaluation
pipeline of `src/analysis/pynncml_experiments/notebooks/load_link_set.py`.

Modelling conventions:
* machine floats are modelled as rationals (`ℚ`); a missing value (NaN)
  is modelled as `none` in `Option ℚ`;
* timestamps are integer Unix seconds (`Int`), as in the source after its
  `astype(np.int64)` conversions;
* numpy arrays and pandas series become Lean lists; a pandas data frame
  indexed by time becomes a list of (time, value) pairs.
-/

/-- Minimum of an integer list (0 on the empty list, which the code never
queries: `np.min` of an empty array is an error upstream). -/
def listMin : List Int → Int
  | [] => 0
  | [x] => x
  | x :: y :: xs => min x (listMin (y :: xs))

/-- Maximum of an integer list (0 on the empty list). -/
def listMax : List Int → Int
  | [] => 0
  | [x] => x
  | x :: y :: xs => max x (listMax (y :: xs))

/-- Maximum of a rational list (0 on the empty list); models `x.max()` on a
non-empty pandas series. -/
def maxQ : List ℚ → ℚ
  | [] => 0
  | [x] => x
  | x :: y :: xs => max x (maxQ (y :: xs))

theorem listMin_le_of_mem {l : List Int} {x : Int} (hx : x ∈ l) : listMin l ≤ x := by
  induction l with
  | nil => cases hx
  | cons a t ih =>
    rcases List.mem_cons.mp hx with rfl | h
    · cases t with
      | nil => simp [listMin]
      | cons b u => simp [listMin]
    · cases t with
      | nil => cases h
      | cons b u => exact le_trans (by simp [listMin]) (ih h)

theorem le_listMax_of_mem {l : List Int} {x : Int} (hx : x ∈ l) : x ≤ listMax l := by
  induction l with
  | nil => cases hx
  | cons a t ih =>
    rcases List.mem_cons.mp hx with rfl | h
    · cases t with
      | nil => simp [listMax]
      | cons b u => simp [listMax]
    · cases t with
      | nil => cases h
      | cons b u => exact le_trans (ih h) (by simp [listMax])

theorem listMin_mem {l : List Int} (h : l ≠ []) : listMin l ∈ l := by
  induction l with
  | nil => exact absurd rfl h
  | cons a t ih =>
    cases t with
    | nil => simp [listMin]
    | cons b u =>
      have hm := ih (by simp)
      simp only [listMin]
      rcases le_total a (listMin (b :: u)) with hle | hle
      · simp [min_eq_left hle]
      · simp only [min_eq_right hle]
        exact List.mem_cons_of_mem _ hm

theorem listMax_mem {l : List Int} (h : l ≠ []) : listMax l ∈ l := by
  induction l with
  | nil => exact absurd rfl h
  | cons a t ih =>
    cases t with
    | nil => simp [listMax]
    | cons b u =>
      have hm := ih (by simp)
      simp only [listMax]
      rcases le_total a (listMax (b :: u)) with hle | hle
      · simp only [max_eq_right hle]
        exact List.mem_cons_of_mem _ hm
      · simp [max_eq_left hle]

theorem listMin_eq_of {l : List Int} {m : Int} (hmem : m ∈ l)
    (hlb : ∀ x ∈ l, m ≤ x) : listMin l = m :=
  le_antisymm (listMin_le_of_mem hmem)
    (hlb _ (listMin_mem (by rintro rfl; cases hmem)))

theorem listMax_eq_of {l : List Int} {m : Int} (hmem : m ∈ l)
    (hub : ∀ x ∈ l, x ≤ m) : listMax l = m :=
  le_antisymm (hub _ (listMax_mem (by rintro rfl; cases hmem)))
    (le_listMax_of_mem hmem)

theorem maxQ_mem {l : List ℚ} (h : l ≠ []) : maxQ l ∈ l := by
  induction l with
  | nil => exact absurd rfl h
  | cons a t ih =>
    cases t with
    | nil => simp [maxQ]
    | cons b u =>
      have hm := ih (by simp)
      simp only [maxQ]
      rcases le_total a (maxQ (b :: u)) with hle | hle
      · simp only [max_eq_right hle]
        exact List.mem_cons_of_mem _ hm
      · simp [max_eq_left hle]

theorem le_maxQ_of_mem {l : List ℚ} {x : ℚ} (hx : x ∈ l) : x ≤ maxQ l := by
  induction l with
  | nil => cases hx
  | cons a t ih =>
    rcases List.mem_cons.mp hx with rfl | h
    · cases t with
      | nil => simp [maxQ]
      | cons b u => simp [maxQ]
    · cases t with
      | nil => cases h
      | cons b u => exact le_trans (ih h) (by simp [maxQ])

/-- Model of `np.arange(a, b, s)` for integer arguments: the values
`a, a + s, a + 2*s, ...` strictly below `b` (empty when the step is not
positive; the source only ever uses positive steps). -/
def arange (a b s : Int) : List Int :=
  if 0 < s then (List.range ((b - a + s - 1) / s).toNat).map (fun i : Nat => a + (i : Int) * s)
  else []

/-- Element access of a mapped list below the length bound. -/
theorem getD_map_lt {α β : Type} (l : List α) (f : α → β) (i : Nat)
    (h : i < l.length) (d : β) (e : α) : (l.map f).getD i d = f (l.getD i e) := by
  induction l generalizing i with
  | nil => cases h
  | cons a t ih =>
    cases i with
    | zero => rfl
    | succ j => exact ih j (by simpa using h)

theorem getD_range_map {α : Type} (f : Nat → α) (n i : Nat) (h : i < n) (d : α) :
    ((List.range n).map f).getD i d = f i := by
  have h1 : i < (List.range n).length := by simpa using h
  rw [getD_map_lt (List.range n) f i h1 d 0]
  congr 1
  have := List.getElem_range (n := n) (m := i) (by simpa using h)
  rw [List.getD_eq_getElem _ _ h1]
  simpa using this

theorem mem_arange {a b s t : Int} (hs : 0 < s) :
    t ∈ arange a b s ↔ ∃ i : Nat, i < ((b - a + s - 1) / s).toNat ∧ t = a + (i : Int) * s := by
  simp only [arange, if_pos hs, List.mem_map, List.mem_range]
  constructor
  · rintro ⟨i, hi, rfl⟩; exact ⟨i, hi, rfl⟩
  · rintro ⟨i, hi, rfl⟩; exact ⟨i, hi, rfl⟩

theorem arange_length {a b s : Int} (hs : 0 < s) :
    (arange a b s).length = ((b - a + s - 1) / s).toNat := by
  simp [arange, if_pos hs]

theorem arange_count_pos {a b s : Int} (hs : 0 < s) (hab : a < b) :
    1 ≤ ((b - a + s - 1) / s).toNat := by
  have h1 : 1 ≤ (b - a + s - 1) / s := by
    have : s ≤ b - a + s - 1 := by omega
    calc (1 : Int) = s / s := by rw [Int.ediv_self (by omega)]
    _ ≤ (b - a + s - 1) / s := Int.ediv_le_ediv hs this
  omega

theorem arange_getD {a b s : Int} (hs : 0 < s) {i : Nat}
    (hi : i < ((b - a + s - 1) / s).toNat) (d : Int) :
    (arange a b s).getD i d = a + (i : Int) * s := by
  simp only [arange, if_pos hs]
  exact getD_range_map _ _ _ hi d

/-- The quotient `(b - a + s - 1) / s` is the number of arange points; the
key bounds on `s * q`. -/
theorem arange_quot_bounds {a b s : Int} (hs : 0 < s) (hab : a < b) :
    b ≤ a + ((b - a + s - 1) / s) * s ∧ a + ((b - a + s - 1) / s) * s < b + s := by
  set D := b - a + s - 1 with hD
  have hmod := Int.ediv_add_emod D s
  have hnn : 0 ≤ D % s := Int.emod_nonneg D (by omega)
  have hlt : D % s < s := Int.emod_lt_of_pos D hs
  constructor
  · nlinarith [hmod, hnn, hlt]
  · nlinarith [hmod, hnn, hlt]

theorem listMin_arange {a b s : Int} (hs : 0 < s) (hab : a < b) :
    listMin (arange a b s) = a := by
  apply listMin_eq_of
  · rw [mem_arange hs]
    exact ⟨0, arange_count_pos hs hab, by simp⟩
  · intro x hx
    rw [mem_arange hs] at hx
    obtain ⟨i, _, rfl⟩ := hx
    nlinarith [Int.natCast_nonneg i]

theorem listMax_arange {a b s : Int} (hs : 0 < s) (hab : a < b) :
    listMax (arange a b s) = a + (((b - a + s - 1) / s) - 1) * s := by
  have hq1 : 1 ≤ (b - a + s - 1) / s := by
    have := arange_count_pos hs hab
    omega
  apply listMax_eq_of
  · rw [mem_arange hs]
    refine ⟨((b - a + s - 1) / s).toNat - 1, by omega, ?_⟩
    have : ((((b - a + s - 1) / s).toNat - 1 : Nat) : Int) = ((b - a + s - 1) / s) - 1 := by
      omega
    rw [this]
  · intro x hx
    rw [mem_arange hs] at hx
    obtain ⟨i, hi, rfl⟩ := hx
    have : (i : Int) ≤ ((b - a + s - 1) / s) - 1 := by omega
    nlinarith

theorem listMax_arange_bounds {a b s : Int} (hs : 0 < s) (hab : a < b) :
    b - s ≤ listMax (arange a b s) ∧ listMax (arange a b s) < b := by
  rw [listMax_arange hs hab]
  obtain ⟨h1, h2⟩ := arange_quot_bounds hs hab
  constructor
  · nlinarith
  · nlinarith

/-- Linear interpolation of a sorted list of (time, value) samples at an
integer query time; `none` (NaN) outside the covered range, and on lists of
fewer than two samples (where `scipy.interpolate.interp1d` with
`kind=linear, bounds_error=False, fill_value=nan, assume_sorted=True`
cannot be built). -/
def interpLinear : List (Int × ℚ) → Int → Option ℚ
  | [], _ => none
  | [_], _ => none
  | (x0, y0) :: (x1, y1) :: rest, t =>
    if t < x0 then none
    else if t ≤ x1 then some (y0 + (y1 - y0) * ((t : ℚ) - (x0 : ℚ)) / ((x1 : ℚ) - (x0 : ℚ)))
    else interpLinear ((x1, y1) :: rest) t

/-- Formalization of the claim wording for C1: a gauge's linearly
interpolated value at a query time inside its covered time range, `none`
(NaN, no extrapolation) outside it.  Unlike `interpLinear`, a single-sample
gauge covers the degenerate range consisting of its own timestamp and
yields its own value there. -/
def interpCovered : List (Int × ℚ) → Int → Option ℚ
  | [], _ => none
  | [(x, y)], t => if t = x then some y else none
  | (x0, y0) :: (x1, y1) :: rest, t =>
    if t < x0 then none
    else if t ≤ x1 then some (y0 + (y1 - y0) * ((t : ℚ) - (x0 : ℚ)) / ((x1 : ℚ) - (x0 : ℚ)))
    else interpCovered ((x1, y1) :: rest) t

/-- Value of the source sample nearest to the query time in a sorted sample
list; ties at an exact midpoint resolve to the earlier sample, as in
`scipy.interpolate.interp1d` with `kind=nearest`. -/
def nearestVal : List (Int × ℚ) → Int → Option ℚ
  | [], _ => none
  | [(_, y)], _ => some y
  | (x0, y0) :: (x1, y1) :: rest, t =>
    if 2 * t ≤ x0 + x1 then some y0 else nearestVal ((x1, y1) :: rest) t

/-- Nearest-neighbor resampling with out-of-bounds fill, the model of
`interp1d(link_time, wd, kind=nearest, bounds_error=False, fill_value=0)`
in `classification_plot` (fill passed explicitly). -/
def interpNearest (pts : List (Int × ℚ)) (fill : ℚ) (t : Int) : ℚ :=
  match pts with
  | [] => fill
  | p :: rest =>
    if t < p.1 ∨ listMax ((p :: rest).map Prod.fst) < t then fill
    else (nearestVal (p :: rest) t).getD fill

/-- Nearest-neighbor alignment of the trimmed classification samples onto
the gauge timestamps (`wd_at_gauge_times` in `classification_plot`). -/
def wd_at_gauge_times (linkSamples : List (Int × ℚ)) (gaugeTimes : List Int) : List ℚ :=
  gaugeTimes.map (interpNearest linkSamples 0)

/-- A point rain sensor: `pynncml`-style `PointSensor` as used by the
notebook loader (parallel data/time arrays plus coordinates). -/
structure PointSensor where
  data_array : List ℚ
  time_array : List Int
  lon : ℚ
  lat : ℚ
deriving DecidableEq

/-- The averaged gauge produced by `patched_xarray2link_with_gauges`:
data on the common time grid, possibly with missing values (NaN = `none`). -/
@[ext]
structure AvgGauge where
  time_array : List Int
  data_array : List (Option ℚ)
  lon : ℚ
  lat : ℚ
deriving DecidableEq

/-- Time step detection of `patched_xarray2link_with_gauges`: the difference
of the first two timestamps of the link series, falling back to 300 seconds
when the link has fewer than two samples. -/
def detectTimeStep : List Int → Int
  | t0 :: t1 :: _ => t1 - t0
  | _ => 300

/-- NaN-aware mean across gauges of one grid column: `np.nanmean` of a list
of optional values (`none` when every contribution is missing). -/
def nanmean (l : List (Option ℚ)) : Option ℚ :=
  let vals := l.filterMap id
  if vals.isEmpty then none else some (vals.sum / (vals.length : ℚ))

/-- Mean of a rational list (`np.mean`); the aggregator applies it to
non-empty coordinate lists only. -/
def qMean (l : List ℚ) : ℚ := l.sum / (l.length : ℚ)

/-- Per-gauge alignment step of `patched_xarray2link_with_gauges` (lines
229-256): restrict the gauge to the overlap of its own time range with the
common grid range, then linearly interpolate onto every grid point; a gauge
whose overlap window is empty or degenerate (`time_max <= time_min`)
contributes a full column of NaN. -/
def alignGauge (common : List Int) (g : PointSensor) : List (Option ℚ) :=
  let gaugeTime := g.time_array
  let time_min := max (listMin gaugeTime) (listMin common)
  let time_max := min (listMax gaugeTime) (listMax common)
  if time_max ≤ time_min then common.map (fun _ => none)
  else
    let pts := (gaugeTime.zip g.data_array).filter
      (fun p => decide (time_min ≤ p.1 ∧ p.1 ≤ time_max))
    common.map (fun t => interpLinear pts t)

/-- The gauge-averaging stage of `patched_xarray2link_with_gauges` (lines
195-289) for a non-empty gauge list: build the common grid
`np.arange(overall_min, overall_max + step, step)` with the step detected
from the link time array, align every gauge onto it, and average
element-wise with `np.nanmean`; location is the mean of the gauge
coordinates. -/
def aggregate (gauges : List PointSensor) (linkTimes : List Int) : AvgGauge :=
  let tmin := listMin (gauges.map (fun g => listMin g.time_array))
  let tmax := listMax (gauges.map (fun g => listMax g.time_array))
  let step := detectTimeStep linkTimes
  let common := arange tmin (tmax + step) step
  let aligned := gauges.map (alignGauge common)
  { time_array := common
    data_array := (List.range common.length).map
      (fun i => nanmean (aligned.map (fun a => a.getD i none)))
    lon := qMean (gauges.map (fun g => g.lon))
    lat := qMean (gauges.map (fun g => g.lat)) }

/-- Gauge-reference decision of `patched_xarray2link_with_gauges`: with at
least one nearby gauge the link gets the singleton list holding the
averaged gauge and `num_gauges_used = len(gauges)`; with none it gets no
reference (`None`) and `num_gauges_used = 0`. -/
def gaugeRefAndCount (gauges : List PointSensor) (linkTimes : List Int) :
    Option (List AvgGauge) × Nat :=
  if gauges.isEmpty then (none, 0) else (some [aggregate gauges linkTimes], gauges.length)

/-- Python slice `a[:-2]`: drop the last two elements (empty result on
lists of fewer than two elements, as in numpy). -/
def dropLast2 {α : Type} (l : List α) : List α := l.dropLast.dropLast

/-- Array extraction of `rain_detection` (lines 485-486): both the
classification row and the standard-deviation row are sliced `[0, :-2]`. -/
def rainDetectionArrays (wd stdv : List ℚ) : List ℚ × List ℚ :=
  (dropLast2 wd, dropLast2 stdv)

/-- Array extraction of `classification_plot` (lines 341-342): the
classification row is sliced `[0, :-2]` but the standard-deviation row is
sliced `[0, :]`, untrimmed. -/
def classificationPlotArrays (wd stdv : List ℚ) : List ℚ × List ℚ :=
  (dropLast2 wd, stdv)

/-- NaN-propagating sum of optional values (`np.sum` semantics inside
`np.mean`): missing anywhere makes the total missing. -/
def sumOpt : List (Option ℚ) → Option ℚ
  | [] => some 0
  | none :: _ => none
  | some v :: rest => (sumOpt rest).map (fun w => v + w)

/-- NaN-propagating mean (`np.mean`): `none` on the empty list or when any
element is missing, otherwise sum divided by length. -/
def meanOpt (l : List (Option ℚ)) : Option ℚ :=
  if l.isEmpty then none else (sumOpt l).map (fun w => w / (l.length : ℚ))

/-- The 15-minute triplet binning `gauge_to15` (lines 444-476): with
`n_trios = ceil(n / 3)` buckets, bucket `i` averages the source values at
indices `3*i` up to `min(3*i + 3, n)` (exclusive) and is stamped with the
time of the first sample of the bucket.  Returns (time_array, gauge_data). -/
def gauge_to15 (g : AvgGauge) : List Int × List (Option ℚ) :=
  let n := g.data_array.length
  let nTrios := (n + 2) / 3
  ((List.range nTrios).map (fun i => g.time_array.getD (3 * i) 0),
   (List.range nTrios).map (fun i =>
     meanOpt ((g.data_array.drop (3 * i)).take (min (3 * i + 3) n - 3 * i))))

/-- Left edge of the 5-minute bucket containing a timestamp: pandas
`resample(5min, label=left, closed=left)` bucket labels (the default
origin is midnight, a multiple of 300 seconds in Unix time, so flooring to
a multiple of 300 is exact). -/
def bucketOf (t : Int) : Int := 300 * (t / 300)

/-- The 5-minute OR-resampling of `rain_detection` (lines 531-533): pandas
generates one bucket per 300-second step between the buckets of the first
and last sample (empty buckets included) and aggregates each with
`1 if (len(x) > 0 and x.max() == 1) else 0`. -/
def resample5min (rows : List (Int × ℚ)) : List (Int × ℚ) :=
  if rows.isEmpty then []
  else
    let ts := rows.map Prod.fst
    let b0 := bucketOf (listMin ts)
    let b1 := bucketOf (listMax ts)
    (arange b0 (b1 + 300) 300).map (fun b =>
      let xs := (rows.filter (fun r => decide (bucketOf r.1 = b))).map Prod.snd
      (b, if xs ≠ [] ∧ maxQ xs = 1 then (1 : ℚ) else 0))

/-- First value bound to a key in an association list (pandas index lookup;
the gauge index is duplicate-free in the reference behavior). -/
def lookupT {α : Type} (key : Int) : List (Int × α) → Option α
  | [] => none
  | (k, v) :: rest => if k = key then some v else lookupT key rest

/-- Inner join of the resampled predictions with the gauge frame on exact
timestamps (`link_resampled.join(gauge_df, how=inner)`, line 536):
timestamps present on only one side are dropped. -/
def joinInner (preds : List (Int × ℚ)) (gauge : List (Int × Option ℚ)) :
    List (Int × ℚ × Option ℚ) :=
  preds.filterMap (fun p => (lookupT p.1 gauge).map (fun v => (p.1, p.2, v)))

/-- The `dropna` after the join (line 537): joined rows carrying a missing
value are dropped. -/
def dropnaRows (rows : List (Int × ℚ × Option ℚ)) : List (Int × ℚ × ℚ) :=
  rows.filterMap (fun r => r.2.2.map (fun v => (r.1, r.2.1, v)))

/-- Resample, join and drop missing rows: the cadence harmonization and
join stage of `rain_detection` feeding the scorer. -/
def scoredRows (linkRows : List (Int × ℚ)) (gaugeRows : List (Int × Option ℚ)) :
    List (Int × ℚ × ℚ) :=
  dropnaRows (joinInner (resample5min linkRows) gaugeRows)

/-- Division as numpy performs it on the integer counts of
`rain_detection`'s returned dictionary: `none` models the NaN produced by
`0 / 0` (the numerator is never positive when the denominator is zero
there). -/
def divOrNan (a b : Nat) : Option ℚ :=
  if b = 0 then none else some ((a : ℚ) / (b : ℚ))

/-- Per-row category assembly of `rain_detection` (lines 546-562): the
categories array is initialized to 0 and the four masks write 1 (TP),
0 (TN), 2 (FP), 3 (FN) in that order. -/
def rowCategory (p : ℚ) (a : Nat) : Nat :=
  let c0 : Nat := 0
  let c1 := if p = 1 ∧ a = 1 then 1 else c0
  let c2 := if p = 0 ∧ a = 0 then 0 else c1
  let c3 := if p = 1 ∧ a = 0 then 2 else c2
  if p = 0 ∧ a = 1 then 3 else c3

/-- Scorer outputs of `rain_detection`: the local metric variables
`accuracy`, `precision` and the recall variable, modelled as the field
`recallMetric` (lines 572-574, denominator-guarded; only
`accuracy` reaches the returned dictionary) together with the returned
dictionary entries `positive_acc` and `negative_acc` (lines 638-639,
unguarded numpy divisions), the four counts and the categories array. -/
structure ScoreResult where
  accuracy : ℚ
  precision : ℚ
  recallMetric : ℚ
  positive_acc : Option ℚ
  negative_acc : Option ℚ
  true_positives : Nat
  true_negatives : Nat
  false_positives : Nat
  false_negatives : Nat
  categories : List Nat
deriving DecidableEq

/-- Confusion-matrix scoring of `rain_detection` (lines 540-574 and
636-646): `actual = (rainfall > rain_threshold).astype(int)`, mask counts,
guarded local metrics and the returned unguarded `positive_acc` and
`negative_acc`. -/
def scoreArrays (pred obs : List ℚ) (thr : ℚ) : ScoreResult :=
  let actual := obs.map (fun v => if thr < v then (1 : Nat) else 0)
  let rows := pred.zip actual
  let tp := rows.countP (fun r => decide (r.1 = 1 ∧ r.2 = 1))
  let tn := rows.countP (fun r => decide (r.1 = 0 ∧ r.2 = 0))
  let fp := rows.countP (fun r => decide (r.1 = 1 ∧ r.2 = 0))
  let fn := rows.countP (fun r => decide (r.1 = 0 ∧ r.2 = 1))
  let total := rows.length
  { accuracy := if 0 < total then ((tp + tn : Nat) : ℚ) / (total : ℚ) else 0
    precision := if 0 < tp + fp then (tp : ℚ) / ((tp + fp : Nat) : ℚ) else 0
    recallMetric := if 0 < tp + fn then (tp : ℚ) / ((tp + fn : Nat) : ℚ) else 0
    positive_acc := divOrNan tp (tp + fn)
    negative_acc := divOrNan tn (tn + fp)
    true_positives := tp
    true_negatives := tn
    false_positives := fp
    false_negatives := fn
    categories := rows.map (fun r => rowCategory r.1 r.2) }

/-- Model of `rain_detection` downstream of the external detector: takes
the link's gauge reference, the full link time array and the detector's
classification and standard-deviation rows; returns `None` when the gauge
reference is absent or empty, otherwise trims, bins the gauge to 15
minutes, restricts both sides to the overlap window, resamples, joins,
drops missing rows and scores with `rain_threshold = 0`. -/
def rain_detection (gaugeRef : Option (List AvgGauge)) (linkTimesFull : List Int)
    (wd stdv : List ℚ) : Option ScoreResult :=
  let arrays := rainDetectionArrays wd stdv
  match gaugeRef with
  | none => none
  | some [] => none
  | some (gauge :: _) =>
    let g15 := gauge_to15 gauge
    let gauge_time := g15.1
    let link_time := dropLast2 linkTimesFull
    let start_time := max (listMin link_time) (listMin gauge_time)
    let end_time := min (listMax link_time) (listMax gauge_time)
    let linkRows := (link_time.zip arrays.1).filter
      (fun r => decide (start_time ≤ r.1 ∧ r.1 ≤ end_time))
    let gaugeRows := (gauge_time.zip g15.2).filter
      (fun r => decide (start_time ≤ r.1 ∧ r.1 ≤ end_time))
    let combined := scoredRows linkRows gaugeRows
    some (scoreArrays (combined.map (fun r => r.2.1)) (combined.map (fun r => r.2.2)) 0)

theorem dropLast2_eq_take {α : Type} (l : List α) : dropLast2 l = l.take (l.length - 2) := by
  unfold dropLast2
  rw [List.dropLast_eq_take, List.dropLast_eq_take, List.length_take, List.take_take]
  congr 1
  omega

theorem nearestVal_mem : ∀ (l : List (Int × ℚ)) (t : Int) (y : ℚ),
    nearestVal l t = some y → ∃ p ∈ l, p.2 = y := by
  intro l
  induction l with
  | nil => intro t y h; simp [nearestVal] at h
  | cons a rest ih =>
    intro t y h
    cases rest with
    | nil =>
      obtain ⟨x, v⟩ := a
      simp only [nearestVal, Option.some.injEq] at h
      exact ⟨(x, v), by simp, h⟩
    | cons b u =>
      obtain ⟨x0, y0⟩ := a
      obtain ⟨x1, y1⟩ := b
      rw [nearestVal] at h
      by_cases hc : 2 * t ≤ x0 + x1
      · rw [if_pos hc] at h
        exact ⟨(x0, y0), by simp, by injection h⟩
      · rw [if_neg hc] at h
        obtain ⟨p, hp, hpy⟩ := ih t y h
        exact ⟨p, List.mem_cons_of_mem _ hp, hpy⟩

theorem sumOpt_map_some (l : List ℚ) : sumOpt (l.map some) = some l.sum := by
  induction l with
  | nil => rfl
  | cons a t ih => simp [sumOpt, ih]

theorem meanOpt_map_some (l : List ℚ) (h : l ≠ []) :
    meanOpt (l.map some) = some (l.sum / (l.length : ℚ)) := by
  unfold meanOpt
  rw [sumOpt_map_some]
  simp [h]

/-- C2 (confirmed): per joined row `observed_wet = observed_value > rain_threshold`
and a row counts as TP iff predicted = 1 and observed wet, TN iff predicted = 0
and not observed wet, FP iff predicted = 1 and not observed wet, FN iff
predicted = 0 and observed wet; on predicted `[1,1,0,0]`, observed
`[2, 0, 0, 3]` at threshold 0 the scorer yields TP = FP = TN = FN = 1 and
accuracy = precision = recall = 1/2 (the recall value also being the returned
`positive_acc`). -/
theorem c2_detection_rule_and_scenario :
    (∀ (pred obs : List ℚ) (thr : ℚ),
      (scoreArrays pred obs thr).true_positives
        = (pred.zip obs).countP (fun r => decide (r.1 = 1 ∧ thr < r.2))
      ∧ (scoreArrays pred obs thr).true_negatives
        = (pred.zip obs).countP (fun r => decide (r.1 = 0 ∧ ¬ thr < r.2))
      ∧ (scoreArrays pred obs thr).false_positives
        = (pred.zip obs).countP (fun r => decide (r.1 = 1 ∧ ¬ thr < r.2))
      ∧ (scoreArrays pred obs thr).false_negatives
        = (pred.zip obs).countP (fun r => decide (r.1 = 0 ∧ thr < r.2)))
    ∧ ((scoreArrays [1, 1, 0, 0] [2, 0, 0, 3] 0).true_positives = 1
      ∧ (scoreArrays [1, 1, 0, 0] [2, 0, 0, 3] 0).false_positives = 1
      ∧ (scoreArrays [1, 1, 0, 0] [2, 0, 0, 3] 0).true_negatives = 1
      ∧ (scoreArrays [1, 1, 0, 0] [2, 0, 0, 3] 0).false_negatives = 1
      ∧ (scoreArrays [1, 1, 0, 0] [2, 0, 0, 3] 0).categories = [1, 2, 0, 3]
      ∧ (scoreArrays [1, 1, 0, 0] [2, 0, 0, 3] 0).accuracy = 1/2
      ∧ (scoreArrays [1, 1, 0, 0] [2, 0, 0, 3] 0).precision = 1/2
      ∧ (scoreArrays [1, 1, 0, 0] [2, 0, 0, 3] 0).recallMetric = 1/2
      ∧ (scoreArrays [1, 1, 0, 0] [2, 0, 0, 3] 0).positive_acc = some (1/2)) := by
  constructor
  · intro pred obs thr
    simp only [scoreArrays, List.zip_map_right, List.countP_map]
    refine ⟨?_, ?_, ?_, ?_⟩ <;>
      · apply List.countP_congr
        intro r hr
        by_cases h : thr < r.2 <;> simp [Prod.map, h]
  · refine ⟨by decide, by decide, by decide, by decide, by decide, ?_, ?_, ?_, ?_⟩ <;>
      norm_num [scoreArrays, divOrNan, List.countP, List.countP.go]

/-- C4 (corrected): in `rain_detection` both the classification array and the
standard-deviation array are trimmed by exactly 2 trailing samples, but in
`classification_plot` only the classification array is trimmed while the
standard-deviation array is used at full length. -/
theorem c4_trailing_trim_amended (wd stdv : List ℚ) :
    (rainDetectionArrays wd stdv).1 = wd.take (wd.length - 2)
    ∧ (rainDetectionArrays wd stdv).2 = stdv.take (stdv.length - 2)
    ∧ (classificationPlotArrays wd stdv).1 = wd.take (wd.length - 2)
    ∧ (classificationPlotArrays wd stdv).2 = stdv :=
  ⟨dropLast2_eq_take wd, dropLast2_eq_take stdv, dropLast2_eq_take wd, rfl⟩

/-- C4 counterexample: with a standard-deviation input of 5 samples,
`classification_plot` keeps all 5 of them, not 5 - 2 = 3, so the claim that
both arrays are trimmed by 2 trailing samples in every processing path is
false. -/
theorem c4_trailing_trim_cex :
    (classificationPlotArrays ([0, 0, 0, 0, 0] : List ℚ) ([1, 2, 3, 4, 5] : List ℚ)).2.length = 5
    ∧ (5 : Nat) ≠ 5 - 2 := by decide

/-- C6 (corrected): `accuracy` is (TP+TN)/total guarded to 0 on an empty join,
the internal `precision` is TP/(TP+FP) guarded to 0 when TP+FP = 0, but the
returned `positive_acc` is the unguarded numpy quotient TP/(TP+FN): NaN
(`none`), not 0, when TP + FN = 0. -/
theorem c6_metric_guards_amended (pred obs : List ℚ) (thr : ℚ) :
    (scoreArrays pred obs thr).accuracy
      = (if (pred.zip obs).length = 0 then 0
         else (((scoreArrays pred obs thr).true_positives
                + (scoreArrays pred obs thr).true_negatives : Nat) : ℚ)
               / ((pred.zip obs).length : ℚ))
    ∧ (scoreArrays pred obs thr).precision
      = (if (scoreArrays pred obs thr).true_positives
            + (scoreArrays pred obs thr).false_positives = 0 then 0
         else ((scoreArrays pred obs thr).true_positives : ℚ)
               / (((scoreArrays pred obs thr).true_positives
                   + (scoreArrays pred obs thr).false_positives : Nat) : ℚ))
    ∧ (scoreArrays pred obs thr).positive_acc
      = (if (scoreArrays pred obs thr).true_positives
            + (scoreArrays pred obs thr).false_negatives = 0 then none
         else some (((scoreArrays pred obs thr).true_positives : ℚ)
               / (((scoreArrays pred obs thr).true_positives
                   + (scoreArrays pred obs thr).false_negatives : Nat) : ℚ))) := by
  have hlen : (pred.zip (obs.map (fun v => if thr < v then (1 : Nat) else 0))).length
      = (pred.zip obs).length := by
    simp [List.length_zip]
  refine ⟨?_, ?_, ?_⟩
  · simp only [scoreArrays, hlen]
    rcases Nat.eq_zero_or_pos (pred.zip obs).length with h | h
    · simp [h]
    · rw [if_pos h, if_neg (by omega)]
  · simp only [scoreArrays]
    set k := (pred.zip (obs.map (fun v => if thr < v then (1 : Nat) else 0))).countP
      (fun r => decide (r.1 = 1 ∧ r.2 = 1)) with hk
    set m := (pred.zip (obs.map (fun v => if thr < v then (1 : Nat) else 0))).countP
      (fun r => decide (r.1 = 1 ∧ r.2 = 0)) with hm
    rcases Nat.eq_zero_or_pos (k + m) with h | h
    · simp [h]
    · rw [if_pos h, if_neg (by omega)]
  · simp only [scoreArrays, divOrNan]

/-- C6 counterexample: on predicted `[0]` and observed `[0]` at threshold 0,
TP + FN = 0 and the returned `positive_acc` is the NaN of the unguarded
numpy division (`none`), not the 0 the claim requires. -/
theorem c6_metric_guards_cex :
    (scoreArrays [0] [0] 0).true_positives + (scoreArrays [0] [0] 0).false_negatives = 0
    ∧ (scoreArrays [0] [0] 0).positive_acc = none
    ∧ (none : Option ℚ) ≠ some 0 := by decide

/-- C7 (confirmed): nearest-neighbor resampling of a classification stream
whose values all lie in {0, 1} onto any target grid produces only values 0
or 1 (the out-of-bounds fill is 0). -/
theorem c7_nearest_preserves_binary (pts : List (Int × ℚ)) (grid : List Int)
    (h : ∀ p ∈ pts, p.2 = 0 ∨ p.2 = 1) :
    ∀ y ∈ wd_at_gauge_times pts grid, y = 0 ∨ y = 1 := by
  intro y hy
  rw [wd_at_gauge_times, List.mem_map] at hy
  obtain ⟨t, _, rfl⟩ := hy
  cases pts with
  | nil => left; rfl
  | cons p rest =>
    rw [interpNearest]
    by_cases hb : t < p.1 ∨ listMax ((p :: rest).map Prod.fst) < t
    · rw [if_pos hb]; left; rfl
    · rw [if_neg hb]
      cases hnv : nearestVal (p :: rest) t with
      | none => left; rfl
      | some y0 =>
        obtain ⟨q, hq, hqy⟩ := nearestVal_mem (p :: rest) t y0 hnv
        simpa [hqy] using h q hq

theorem c7_nearest_preserves_binary_witness :
    (∀ p ∈ [((0 : Int), (1 : ℚ)), (10, 0)], p.2 = 0 ∨ p.2 = 1)
    ∧ ∀ y ∈ wd_at_gauge_times [((0 : Int), (1 : ℚ)), (10, 0)] [-5, 4, 5, 6, 20],
        y = 0 ∨ y = 1 :=
  ⟨by decide, c7_nearest_preserves_binary _ _ (by decide)⟩

/-- C8 (confirmed): an empty gauge set yields no averaged gauge and a
recorded count of zero gauges used, and `rain_detection` on a link whose
gauge reference is absent or empty returns `None` (skip) instead of a
result. -/
theorem c8_missing_gauge_skip (lt ltf : List Int) (wd stdv : List ℚ) :
    gaugeRefAndCount [] lt = (none, 0)
    ∧ rain_detection none ltf wd stdv = none
    ∧ rain_detection (some []) ltf wd stdv = none :=
  ⟨rfl, rfl, rfl⟩

/-- C10 (confirmed): for a gauge series of n >= 1 values, `gauge_to15`
produces exactly ceil(n/3) buckets; bucket i holds the arithmetic mean of
the source values at indices 3i up to (but excluding) min(3i+3, n) and is
stamped with the timestamp of the first sample of the bucket. -/
theorem c10_triplet_binning (times : List Int) (vs : List ℚ)
    (hlen : times.length = vs.length) (hn : 1 ≤ vs.length) :
    (gauge_to15 ⟨times, vs.map some, 0, 0⟩).1.length = (vs.length + 2) / 3
    ∧ (gauge_to15 ⟨times, vs.map some, 0, 0⟩).2.length = (vs.length + 2) / 3
    ∧ ∀ i < (vs.length + 2) / 3,
        (gauge_to15 ⟨times, vs.map some, 0, 0⟩).1.getD i 0 = times.getD (3 * i) 0
        ∧ (gauge_to15 ⟨times, vs.map some, 0, 0⟩).2.getD i none
          = some (((vs.drop (3 * i)).take (min (3 * i + 3) vs.length - 3 * i)).sum
                  / ((min (3 * i + 3) vs.length - 3 * i : Nat) : ℚ)) := by
  refine ⟨by simp [gauge_to15], by simp [gauge_to15], ?_⟩
  intro i hi
  constructor
  · simp only [gauge_to15, List.length_map]
    exact getD_range_map _ _ _ hi 0
  · simp only [gauge_to15, List.length_map]
    rw [getD_range_map _ _ _ hi none]
    have hslice : ((vs.drop (3 * i)).take (min (3 * i + 3) vs.length - 3 * i)).length
        = min (3 * i + 3) vs.length - 3 * i := by
      rw [List.length_take, List.length_drop]
      omega
    rw [← List.map_drop, ← List.map_take, meanOpt_map_some]
    · rw [hslice]
    · have h3i : 3 * i < vs.length := by omega
      have : ((vs.drop (3 * i)).take (min (3 * i + 3) vs.length - 3 * i)).length
          = min (3 * i + 3) vs.length - 3 * i := by
        rw [List.length_take, List.length_drop]
        omega
      intro hcon
      rw [hcon] at this
      simp at this
      omega

theorem c10_triplet_binning_witness :
    ([(0 : Int), 1, 2, 3].length = ([1, 2, 3, 4] : List ℚ).length
      ∧ 1 ≤ ([1, 2, 3, 4] : List ℚ).length)
    ∧ ((gauge_to15 ⟨[0, 1, 2, 3], ([1, 2, 3, 4] : List ℚ).map some, 0, 0⟩).1.length
        = (([1, 2, 3, 4] : List ℚ).length + 2) / 3
      ∧ (gauge_to15 ⟨[0, 1, 2, 3], ([1, 2, 3, 4] : List ℚ).map some, 0, 0⟩).2.length
        = (([1, 2, 3, 4] : List ℚ).length + 2) / 3
      ∧ ∀ i < (([1, 2, 3, 4] : List ℚ).length + 2) / 3,
          (gauge_to15 ⟨[0, 1, 2, 3], ([1, 2, 3, 4] : List ℚ).map some, 0, 0⟩).1.getD i 0
            = [(0 : Int), 1, 2, 3].getD (3 * i) 0
          ∧ (gauge_to15 ⟨[0, 1, 2, 3], ([1, 2, 3, 4] : List ℚ).map some, 0, 0⟩).2.getD i none
            = some (((([1, 2, 3, 4] : List ℚ).drop (3 * i)).take
                      (min (3 * i + 3) ([1, 2, 3, 4] : List ℚ).length - 3 * i)).sum
                    / ((min (3 * i + 3) ([1, 2, 3, 4] : List ℚ).length - 3 * i : Nat) : ℚ))) :=
  ⟨⟨by decide, by decide⟩, c10_triplet_binning [0, 1, 2, 3] [1, 2, 3, 4] (by decide) (by decide)⟩

/-- Overall minimum timestamp across gauges
(`min(gt.min() for gt in all_gauge_times)`). -/
def overallMin (gauges : List PointSensor) : Int :=
  listMin (gauges.map (fun g => listMin g.time_array))

/-- Overall maximum timestamp across gauges
(`max(gt.max() for gt in all_gauge_times)`). -/
def overallMax (gauges : List PointSensor) : Int :=
  listMax (gauges.map (fun g => listMax g.time_array))

theorem overallMin_le_overallMax (gauges : List PointSensor) (hne : gauges ≠ [])
    (hgne : ∀ g ∈ gauges, g.time_array ≠ []) :
    overallMin gauges ≤ overallMax gauges := by
  obtain ⟨g, hgmem⟩ := List.exists_mem_of_ne_nil gauges hne
  have h1 : overallMin gauges ≤ listMin g.time_array :=
    listMin_le_of_mem (List.mem_map_of_mem _ hgmem)
  have h2 : listMin g.time_array ≤ listMax g.time_array :=
    le_listMax_of_mem (listMin_mem (hgne g hgmem))
  have h3 : listMax g.time_array ≤ overallMax gauges :=
    le_listMax_of_mem (List.mem_map_of_mem _ hgmem)
  omega

theorem nanmean_eq_none_iff (l : List (Option ℚ)) :
    nanmean l = none ↔ ∀ x ∈ l, x = none := by
  unfold nanmean
  by_cases h : (l.filterMap id).isEmpty
  · rw [if_pos h]
    rw [List.isEmpty_iff, List.filterMap_eq_nil_iff] at h
    simpa using fun x hx => h x hx
  · rw [if_neg h]
    rw [List.isEmpty_iff, List.filterMap_eq_nil_iff] at h
    constructor
    · intro hc; cases hc
    · intro hall
      exact absurd (fun x hx => by simpa using hall x hx) h

theorem nanmean_two (x : Option ℚ) : nanmean [x, x] = nanmean [x] := by
  cases x with
  | none => rfl
  | some v =>
    simp only [nanmean, List.filterMap, Option.some.injEq]
    norm_num

theorem qMean_two (v : ℚ) : qMean [v, v] = qMean [v] := by
  simp only [qMean, List.sum_cons, List.sum_nil, List.length_cons, List.length_nil]
  norm_num

/-- Executable strict sortedness of a timestamp list: the data-model
invariant that timestamps are increasing with no duplicates. -/
def strictSorted : List Int → Bool
  | [] => true
  | [_] => true
  | x :: y :: u => decide (x < y) && strictSorted (y :: u)

theorem strictSorted_cons {x y : Int} {u : List Int}
    (h : strictSorted (x :: y :: u) = true) :
    x < y ∧ strictSorted (y :: u) = true := by
  simpa [strictSorted] using h

theorem listMin_lt_listMax_of_two {x y : Int} {u : List Int}
    (h : strictSorted (x :: y :: u) = true) :
    listMin (x :: y :: u) < listMax (x :: y :: u) := by
  have hxy : x < y := (strictSorted_cons h).1
  have h1 : listMin (x :: y :: u) ≤ x := listMin_le_of_mem (by simp)
  have h2 : y ≤ listMax (x :: y :: u) := le_listMax_of_mem (by simp)
  omega

theorem degenerate_iff_short {ts : List Int} (hne : ts ≠ [])
    (hs : strictSorted ts = true) :
    listMax ts ≤ listMin ts ↔ ts.length ≤ 1 := by
  cases ts with
  | nil => exact absurd rfl hne
  | cons a t =>
    cases t with
    | nil => simp [listMin, listMax]
    | cons b u =>
      have := listMin_lt_listMax_of_two hs
      constructor
      · intro hc; omega
      · intro hc; simp at hc

theorem filter_zip_bounds (ts : List Int) (ds : List ℚ) :
    (ts.zip ds).filter (fun p => decide (listMin ts ≤ p.1 ∧ p.1 ≤ listMax ts))
      = ts.zip ds := by
  apply List.filter_eq_self.mpr
  intro p hp
  obtain ⟨a, b⟩ := p
  have h1 : a ∈ ts := (List.of_mem_zip hp).1
  simp [listMin_le_of_mem h1, le_listMax_of_mem h1]

theorem alignGauge_getD (common : List Int) (g : PointSensor)
    (hne : g.time_array ≠ []) (hs : strictSorted g.time_array = true)
    (hlo : listMin common ≤ listMin g.time_array)
    (hhi : listMax g.time_array ≤ listMax common)
    (i : Nat) (hi : i < common.length) :
    (alignGauge common g).getD i none
      = if g.time_array.length ≤ 1 then none
        else interpLinear (g.time_array.zip g.data_array) (common.getD i 0) := by
  simp only [alignGauge]
  rw [max_eq_left hlo, min_eq_left hhi]
  by_cases hd : g.time_array.length ≤ 1
  · rw [if_pos ((degenerate_iff_short hne hs).mpr hd), if_pos hd]
    exact getD_map_lt common _ i hi none 0
  · rw [if_neg (fun hc => hd ((degenerate_iff_short hne hs).mp hc)), if_neg hd]
    rw [filter_zip_bounds]
    exact getD_map_lt common _ i hi none 0

/-- Central refinement of the gauge averaging stage: at every point of the
common grid the aggregate value is the NaN-aware mean across gauges of each
gauge's linearly interpolated value there, where a gauge with fewer than
two samples contributes NaN everywhere and interpolation never
extrapolates outside a gauge's covered range. -/
theorem aggregate_getD (gauges : List PointSensor) (lt : List Int)
    (hne : gauges ≠ [])
    (hg : ∀ g ∈ gauges, g.time_array ≠ [] ∧ strictSorted g.time_array = true)
    (hstep : 0 < detectTimeStep lt)
    (i : Nat) (hi : i < (aggregate gauges lt).time_array.length) :
    (aggregate gauges lt).data_array.getD i none
      = nanmean (gauges.map (fun g =>
          if g.time_array.length ≤ 1 then none
          else interpLinear (g.time_array.zip g.data_array)
            ((aggregate gauges lt).time_array.getD i 0))) := by
  have hmm : overallMin gauges ≤ overallMax gauges :=
    overallMin_le_overallMax gauges hne (fun g hgm => (hg g hgm).1)
  have hab : overallMin gauges < overallMax gauges + detectTimeStep lt := by omega
  have htime : (aggregate gauges lt).time_array
      = arange (overallMin gauges) (overallMax gauges + detectTimeStep lt)
          (detectTimeStep lt) := rfl
  have hi2 : i < (arange (overallMin gauges)
      (overallMax gauges + detectTimeStep lt) (detectTimeStep lt)).length := by
    rw [← htime]; exact hi
  have hdata : (aggregate gauges lt).data_array.getD i none
      = nanmean ((gauges.map (alignGauge (aggregate gauges lt).time_array)).map
          (fun a => a.getD i none)) := by
    simp only [aggregate] at hi ⊢
    exact getD_range_map _ _ _ (by simpa using hi) none
  rw [hdata, List.map_map]
  congr 1
  apply List.map_congr_left
  intro g hgm
  have hlo : listMin (aggregate gauges lt).time_array ≤ listMin g.time_array := by
    rw [htime, listMin_arange hstep hab]
    exact listMin_le_of_mem (List.mem_map_of_mem _ hgm)
  have hhi : listMax g.time_array ≤ listMax (aggregate gauges lt).time_array := by
    have h1 : listMax g.time_array ≤ overallMax gauges :=
      le_listMax_of_mem (List.mem_map_of_mem _ hgm)
    have h2 := (listMax_arange_bounds hstep hab).1
    rw [htime]
    omega
  exact alignGauge_getD _ g (hg g hgm).1 (hg g hgm).2 hlo hhi i (by rw [htime] at hi; exact hi)

theorem arange_headq {a b s : Int} (hs : 0 < s) (hab : a < b) :
    (arange a b s).head? = some a := by
  have h1 := arange_count_pos hs hab
  simp only [arange, if_pos hs]
  obtain ⟨m, hm⟩ : ∃ m, ((b - a + s - 1) / s).toNat = m + 1 :=
    ⟨((b - a + s - 1) / s).toNat - 1, by omega⟩
  rw [hm, List.range_succ_eq_map]
  simp

theorem chain_map_range_step (s : Int) (n : Nat) :
    ∀ a : Int, List.Chain' (fun x y => y = x + s)
      ((List.range n).map (fun i : Nat => a + (i : Int) * s)) := by
  induction n with
  | zero => intro a; simp
  | succ m ih =>
    intro a
    rw [List.range_succ_eq_map, List.map_cons, List.map_map]
    have hmap : (List.range m).map ((fun i : Nat => a + (i : Int) * s) ∘ Nat.succ)
        = (List.range m).map (fun i : Nat => (a + s) + (i : Int) * s) := by
      apply List.map_congr_left
      intro i _
      simp only [Function.comp]
      push_cast
      ring
    rw [hmap]
    apply List.Chain'.cons' (ih (a + s))
    intro y hy
    cases m with
    | zero => simp at hy
    | succ k =>
      rw [List.range_succ_eq_map] at hy
      simp only [List.map_cons, List.head?_cons, Option.mem_def, Option.some.injEq] at hy
      subst hy
      push_cast
      ring

theorem chain_arange {a b s : Int} (hs : 0 < s) :
    List.Chain' (fun x y => y = x + s) (arange a b s) := by
  simp only [arange, if_pos hs]
  exact chain_map_range_step s _ a

/-- C1 (corrected): at every point of the common grid the averaged value is
the NaN-ignoring mean across gauges of each gauge's linearly interpolated
value there, with no extrapolation outside a gauge's covered range, and the
output is NaN exactly when every gauge contributes NaN — except that a
gauge with fewer than two samples contributes NaN at every grid point, even
at its own timestamp (the source treats its degenerate overlap window
`time_max <= time_min` as empty). -/
theorem c1_nan_aware_averaging_amended (gauges : List PointSensor) (lt : List Int)
    (hne : gauges ≠ [])
    (hg : ∀ g ∈ gauges, g.time_array ≠ [] ∧ strictSorted g.time_array = true)
    (hstep : 0 < detectTimeStep lt)
    (i : Nat) (hi : i < (aggregate gauges lt).time_array.length) :
    ((aggregate gauges lt).data_array.getD i none
      = nanmean (gauges.map (fun g =>
          if g.time_array.length ≤ 1 then none
          else interpLinear (g.time_array.zip g.data_array)
            ((aggregate gauges lt).time_array.getD i 0))))
    ∧ ((aggregate gauges lt).data_array.getD i none = none
        ↔ ∀ g ∈ gauges,
            (if g.time_array.length ≤ 1 then none
             else interpLinear (g.time_array.zip g.data_array)
               ((aggregate gauges lt).time_array.getD i 0)) = (none : Option ℚ)) := by
  have h := aggregate_getD gauges lt hne hg hstep i hi
  refine ⟨h, ?_⟩
  rw [h, nanmean_eq_none_iff]
  constructor
  · intro hall g hgm
    exact hall _ (List.mem_map_of_mem _ hgm)
  · intro hall x hx
    obtain ⟨g, hgm, rfl⟩ := List.mem_map.mp hx
    exact hall g hgm

theorem c1_nan_aware_averaging_witness :
    (([⟨[1, 1], [0, 300], 0, 0⟩] : List PointSensor) ≠ []
      ∧ (∀ g ∈ ([⟨[1, 1], [0, 300], 0, 0⟩] : List PointSensor),
          g.time_array ≠ [] ∧ strictSorted g.time_array = true)
      ∧ 0 < detectTimeStep [0, 300]
      ∧ 0 < (aggregate [⟨[1, 1], [0, 300], 0, 0⟩] [0, 300]).time_array.length)
    ∧ (((aggregate [⟨[1, 1], [0, 300], 0, 0⟩] [0, 300]).data_array.getD 0 none
      = nanmean (([⟨[1, 1], [0, 300], 0, 0⟩] : List PointSensor).map (fun g =>
          if g.time_array.length ≤ 1 then none
          else interpLinear (g.time_array.zip g.data_array)
            ((aggregate [⟨[1, 1], [0, 300], 0, 0⟩] [0, 300]).time_array.getD 0 0))))
    ∧ ((aggregate [⟨[1, 1], [0, 300], 0, 0⟩] [0, 300]).data_array.getD 0 none = none
        ↔ ∀ g ∈ ([⟨[1, 1], [0, 300], 0, 0⟩] : List PointSensor),
            (if g.time_array.length ≤ 1 then none
             else interpLinear (g.time_array.zip g.data_array)
               ((aggregate [⟨[1, 1], [0, 300], 0, 0⟩] [0, 300]).time_array.getD 0 0))
              = (none : Option ℚ))) :=
  ⟨⟨by decide, by decide, by decide, by decide⟩,
    c1_nan_aware_averaging_amended [⟨[1, 1], [0, 300], 0, 0⟩] [0, 300]
      (by decide) (by decide) (by decide) 0 (by decide)⟩

/-- C1 counterexample: with a single-sample gauge (value 5 at t = 0) and a
two-sample gauge (value 1 at t = 0 and t = 300), the averaged value at grid
point 0 is 1 (the single-sample gauge is dropped entirely), while the
claim's rule — every gauge whose covered range contains the grid point
contributes its interpolated value — would give mean(5, 1) = 3. -/
theorem c1_nan_aware_averaging_cex :
    (aggregate [⟨[5], [0], 0, 0⟩, ⟨[1, 1], [0, 300], 0, 0⟩] [0, 300]).data_array.getD 0 none
      = some 1
    ∧ nanmean (([⟨[5], [0], 0, 0⟩, ⟨[1, 1], [0, 300], 0, 0⟩] : List PointSensor).map
        (fun g => interpCovered (g.time_array.zip g.data_array)
          ((aggregate [⟨[5], [0], 0, 0⟩, ⟨[1, 1], [0, 300], 0, 0⟩]
              [0, 300]).time_array.getD 0 0)))
      = some 3
    ∧ some (1 : ℚ) ≠ some (3 : ℚ) := by
  have ht : (aggregate [⟨[5], [0], 0, 0⟩, ⟨[1, 1], [0, 300], 0, 0⟩]
      [0, 300]).time_array.getD 0 0 = 0 := by decide
  refine ⟨?_, ?_, by norm_num⟩
  · rw [aggregate_getD _ _ (by decide) (by decide) (by decide) 0 (by decide), ht]
    norm_num [interpLinear, nanmean, List.filterMap]
  · rw [ht]
    norm_num [interpCovered, nanmean, List.filterMap]

/-- C3 (corrected): the averaged gauge's grid is uniform with spacing
`detectTimeStep` of the link series (first consecutive delta, 300 when the
link has fewer than two samples), starts at the overall gauge minimum, and
ends at the first grid point at or beyond the overall gauge maximum
(strictly below maximum + step) — the maximum itself is a grid point only
when the step divides the range, so the grid is not in general
min-to-max-inclusive. -/
theorem c3_grid_construction_amended (gauges : List PointSensor) (lt : List Int)
    (hne : gauges ≠ []) (hgne : ∀ g ∈ gauges, g.time_array ≠ [])
    (hstep : 0 < detectTimeStep lt) :
    (aggregate gauges lt).time_array.head? = some (overallMin gauges)
    ∧ List.Chain' (fun x y => y = x + detectTimeStep lt) (aggregate gauges lt).time_array
    ∧ overallMax gauges ≤ listMax (aggregate gauges lt).time_array
    ∧ listMax (aggregate gauges lt).time_array
        < overallMax gauges + detectTimeStep lt := by
  have hmm := overallMin_le_overallMax gauges hne hgne
  have hab : overallMin gauges < overallMax gauges + detectTimeStep lt := by omega
  have htime : (aggregate gauges lt).time_array
      = arange (overallMin gauges) (overallMax gauges + detectTimeStep lt)
          (detectTimeStep lt) := rfl
  rw [htime]
  have hb := listMax_arange_bounds hstep hab
  exact ⟨arange_headq hstep hab, chain_arange hstep, by omega, by omega⟩

theorem c3_grid_construction_witness :
    (([⟨[0, 0, 0], [0, 200, 400], 0, 0⟩] : List PointSensor) ≠ []
      ∧ (∀ g ∈ ([⟨[0, 0, 0], [0, 200, 400], 0, 0⟩] : List PointSensor), g.time_array ≠ [])
      ∧ 0 < detectTimeStep [0, 300])
    ∧ ((aggregate [⟨[0, 0, 0], [0, 200, 400], 0, 0⟩] [0, 300]).time_array.head?
        = some (overallMin [⟨[0, 0, 0], [0, 200, 400], 0, 0⟩])
      ∧ List.Chain' (fun x y => y = x + detectTimeStep [0, 300])
          (aggregate [⟨[0, 0, 0], [0, 200, 400], 0, 0⟩] [0, 300]).time_array
      ∧ overallMax [⟨[0, 0, 0], [0, 200, 400], 0, 0⟩]
          ≤ listMax (aggregate [⟨[0, 0, 0], [0, 200, 400], 0, 0⟩] [0, 300]).time_array
      ∧ listMax (aggregate [⟨[0, 0, 0], [0, 200, 400], 0, 0⟩] [0, 300]).time_array
          < overallMax [⟨[0, 0, 0], [0, 200, 400], 0, 0⟩] + detectTimeStep [0, 300]) :=
  ⟨⟨by decide, by decide, by decide⟩,
    c3_grid_construction_amended [⟨[0, 0, 0], [0, 200, 400], 0, 0⟩] [0, 300]
      (by decide) (by decide) (by decide)⟩

/-- C3 counterexample: a gauge covering timestamps 0..400 with a link step
of 300 produces the grid [0, 300, 600]: the overall maximum 400 is not a
grid point and the grid runs past it, refuting min-to-max-inclusive. -/
theorem c3_grid_construction_cex :
    (aggregate [⟨[0, 0, 0], [0, 200, 400], 0, 0⟩] [0, 300]).time_array = [0, 300, 600]
    ∧ overallMax [⟨[0, 0, 0], [0, 200, 400], 0, 0⟩] = 400
    ∧ (400 : Int) ∉ ([0, 300, 600] : List Int)
    ∧ listMax [0, 300, 600] ≠ overallMax [⟨[0, 0, 0], [0, 200, 400], 0, 0⟩] := by decide

/-- C9 (corrected): aggregating a gauge together with an identical
duplicate yields exactly the same averaged gauge as aggregating the single
gauge alone (the mean of two identical values is the value); the result is
the gauge's own series only when the common grid happens to coincide with
the gauge's own timestamps, since the aggregator resamples onto the
link-step grid. -/
theorem c9_duplicate_idempotence_amended (g : PointSensor) (lt : List Int) :
    aggregate [g, g] lt = aggregate [g] lt := by
  have hmin : listMin ([g, g].map (fun x => listMin x.time_array))
      = listMin ([g].map (fun x => listMin x.time_array)) := by
    simp [listMin]
  have hmax : listMax ([g, g].map (fun x => listMax x.time_array))
      = listMax ([g].map (fun x => listMax x.time_array)) := by
    simp [listMax]
  simp only [aggregate, hmin, hmax]
  congr 1
  · apply List.map_congr_left
    intro i _
    simp only [List.map_cons, List.map_nil]
    exact nanmean_two _
  · exact qMean_two g.lon
  · exact qMean_two g.lat

/-- C9 counterexample: the gauge with values [0, 6] at times [0, 600]
averaged against its own duplicate with link step 300 yields a 3-point
series on the grid [0, 300, 600], which is not numerically equal to the
2-point original series. -/
theorem c9_duplicate_idempotence_cex :
    (aggregate [⟨[0, 6], [0, 600], 0, 0⟩, ⟨[0, 6], [0, 600], 0, 0⟩] [0, 300]).time_array
      = [0, 300, 600]
    ∧ (⟨[0, 6], [0, 600], 0, 0⟩ : PointSensor).time_array = [0, 600]
    ∧ (aggregate [⟨[0, 6], [0, 600], 0, 0⟩, ⟨[0, 6], [0, 600], 0, 0⟩]
        [0, 300]).data_array.length = 3
    ∧ ((⟨[0, 6], [0, 600], 0, 0⟩ : PointSensor).data_array.map some).length = 2
    ∧ (aggregate [⟨[0, 6], [0, 600], 0, 0⟩, ⟨[0, 6], [0, 600], 0, 0⟩] [0, 300]).data_array
        ≠ (⟨[0, 6], [0, 600], 0, 0⟩ : PointSensor).data_array.map some := by
  refine ⟨by decide, by decide, by decide, by decide, ?_⟩
  intro h
  have h1 : (aggregate [⟨[0, 6], [0, 600], 0, 0⟩, ⟨[0, 6], [0, 600], 0, 0⟩]
      [0, 300]).data_array.length = 3 := by decide
  rw [h] at h1
  exact absurd h1 (by decide)

theorem lookupT_eq_some_iff {α : Type} (gauge : List (Int × α))
    (hnd : (gauge.map Prod.fst).Nodup) (t : Int) (v : α) :
    lookupT t gauge = some v ↔ (t, v) ∈ gauge := by
  induction gauge with
  | nil => simp [lookupT]
  | cons kv rest ih =>
    obtain ⟨k, w⟩ := kv
    rw [List.map_cons, List.nodup_cons] at hnd
    by_cases hk : k = t
    · subst hk
      rw [lookupT, if_pos rfl]
      constructor
      · intro hv
        rw [Option.some.injEq] at hv
        subst hv
        exact List.mem_cons_self _ _
      · intro hv
        rcases List.mem_cons.mp hv with heq | hmem
        · rw [Prod.mk.injEq] at heq
          rw [heq.2]
        · exact absurd (List.mem_map_of_mem Prod.fst hmem) hnd.1
    · rw [lookupT, if_neg hk]
      rw [ih hnd.2]
      constructor
      · exact fun hm => List.mem_cons_of_mem _ hm
      · intro hv
        rcases List.mem_cons.mp hv with heq | hmem
        · rw [Prod.mk.injEq] at heq
          exact absurd heq.1.symm hk
        · exact hmem

theorem mem_dropnaRows (rows : List (Int × ℚ × Option ℚ)) (t : Int) (p v : ℚ) :
    (t, p, v) ∈ dropnaRows rows ↔ (t, p, some v) ∈ rows := by
  unfold dropnaRows
  rw [List.mem_filterMap]
  constructor
  · rintro ⟨⟨x, y, z⟩, hr, hf⟩
    obtain ⟨v0, hv0, heq⟩ := Option.map_eq_some'.mp hf
    simp only at hv0
    rw [Prod.mk.injEq, Prod.mk.injEq] at heq
    obtain ⟨h1, h2, h3⟩ := heq
    subst h1; subst h2; subst h3
    rw [hv0] at hr
    exact hr
  · intro hr
    exact ⟨(t, p, some v), hr, rfl⟩

theorem mem_joinInner (preds : List (Int × ℚ)) (gauge : List (Int × Option ℚ))
    (t : Int) (p : ℚ) (v : Option ℚ) :
    (t, p, v) ∈ joinInner preds gauge
      ↔ (t, p) ∈ preds ∧ lookupT t gauge = some v := by
  unfold joinInner
  rw [List.mem_filterMap]
  constructor
  · rintro ⟨⟨x, y⟩, hr, hf⟩
    obtain ⟨v0, hv0, heq⟩ := Option.map_eq_some'.mp hf
    simp only at hv0
    rw [Prod.mk.injEq, Prod.mk.injEq] at heq
    obtain ⟨h1, h2, h3⟩ := heq
    subst h1; subst h2; subst h3
    exact ⟨hr, hv0⟩
  · rintro ⟨hmem, hlk⟩
    exact ⟨(t, p), hmem, by rw [hlk]; rfl⟩

theorem maxQ_eq_one_of (xs : List ℚ) (hne : xs ≠ []) (h1 : (1 : ℚ) ∈ xs)
    (hbin : ∀ x ∈ xs, x = 0 ∨ x = 1) : maxQ xs = 1 := by
  have hmem := maxQ_mem hne
  have hle := le_maxQ_of_mem h1
  rcases hbin _ hmem with h | h
  · rw [h] at hle; norm_num at hle
  · exact h

/-- C5 (confirmed): the predicted stream is resampled into fixed 5-minute
buckets (each bucket label a multiple of 300 seconds) by OR-reduction — a
bucket value is 1 exactly when some sample inside it is 1, else 0 — and the
rows reaching the scorer are exactly the bucket/gauge pairs whose
timestamps match on both sides (inner join) and whose gauge value is not
missing. -/
theorem c5_resample_join (rows : List (Int × ℚ)) (gauge : List (Int × Option ℚ))
    (hp : ∀ r ∈ rows, r.2 = 0 ∨ r.2 = 1)
    (hnd : (gauge.map Prod.fst).Nodup) :
    (∀ b q, (b, q) ∈ resample5min rows →
      b % 300 = 0 ∧ (q = 0 ∨ q = 1)
      ∧ (q = 1 ↔ ∃ r ∈ rows, bucketOf r.1 = b ∧ r.2 = 1))
    ∧ (∀ t p v, (t, p, v) ∈ scoredRows rows gauge
        ↔ ((t, p) ∈ resample5min rows ∧ (t, some v) ∈ gauge)) := by
  constructor
  · intro b q hbq
    unfold resample5min at hbq
    by_cases hrows : rows.isEmpty
    · rw [if_pos hrows] at hbq
      cases hbq
    · rw [if_neg hrows] at hbq
      rw [List.mem_map] at hbq
      obtain ⟨b0, hb0, heq⟩ := hbq
      rw [Prod.mk.injEq] at heq
      obtain ⟨hb, hq⟩ := heq
      subst hb
      rw [mem_arange (by norm_num)] at hb0
      obtain ⟨i, _, hbi⟩ := hb0
      refine ⟨?_, ?_, ?_⟩
      · rw [hbi]
        unfold bucketOf
        omega
      · rw [← hq]
        by_cases hc : ((rows.filter (fun r => decide (bucketOf r.1 = b0))).map Prod.snd)
            ≠ [] ∧ maxQ ((rows.filter (fun r => decide (bucketOf r.1 = b0))).map Prod.snd) = 1
        · rw [if_pos hc]; right; rfl
        · rw [if_neg hc]; left; rfl
      · rw [← hq]
        by_cases hc : ((rows.filter (fun r => decide (bucketOf r.1 = b0))).map Prod.snd)
            ≠ [] ∧ maxQ ((rows.filter (fun r => decide (bucketOf r.1 = b0))).map Prod.snd) = 1
        · rw [if_pos hc]
          obtain ⟨hne, hmax⟩ := hc
          have hmem := maxQ_mem hne
          rw [hmax] at hmem
          rw [List.mem_map] at hmem
          obtain ⟨r, hrf, hr2⟩ := hmem
          have hrr := List.mem_of_mem_filter hrf
          have hrb : bucketOf r.1 = b0 := by
            have := List.of_mem_filter hrf
            simpa using this
          simp only [true_iff]
          exact ⟨r, hrr, hrb, hr2⟩
        · rw [if_neg hc]
          constructor
          · intro h01; norm_num at h01
          · rintro ⟨r, hrr, hrb, hr1⟩
            apply absurd ?_ hc
            have hmemx : (1 : ℚ) ∈ (rows.filter (fun r => decide (bucketOf r.1 = b0))).map Prod.snd := by
              rw [List.mem_map]
              exact ⟨r, List.mem_filter.mpr ⟨hrr, by simpa using hrb⟩, hr1⟩
            have hnex : (rows.filter (fun r => decide (bucketOf r.1 = b0))).map Prod.snd ≠ [] := by
              intro hnil
              rw [hnil] at hmemx
              cases hmemx
            refine ⟨hnex, maxQ_eq_one_of _ hnex hmemx ?_⟩
            intro x hx
            rw [List.mem_map] at hx
            obtain ⟨r0, hr0, hr0x⟩ := hx
            rw [← hr0x]
            exact hp r0 (List.mem_of_mem_filter hr0)
  · intro t p v
    unfold scoredRows
    rw [mem_dropnaRows, mem_joinInner, lookupT_eq_some_iff gauge hnd]

theorem c5_resample_join_witness :
    ((∀ r ∈ ([(0, 0), (100, 1), (650, 0), (1500, 1)] : List (Int × ℚ)),
        r.2 = 0 ∨ r.2 = 1)
      ∧ (([((0 : Int), some (2 : ℚ)), (300, none), (600, some 0), (1500, some 1)].map
          Prod.fst).Nodup))
    ∧ ((∀ b q, (b, q) ∈ resample5min [(0, 0), (100, 1), (650, 0), (1500, 1)] →
        b % 300 = 0 ∧ (q = 0 ∨ q = 1)
        ∧ (q = 1 ↔ ∃ r ∈ ([(0, 0), (100, 1), (650, 0), (1500, 1)] : List (Int × ℚ)),
            bucketOf r.1 = b ∧ r.2 = 1))
      ∧ (∀ t p v, (t, p, v) ∈ scoredRows [(0, 0), (100, 1), (650, 0), (1500, 1)]
            [((0 : Int), some (2 : ℚ)), (300, none), (600, some 0), (1500, some 1)]
          ↔ ((t, p) ∈ resample5min [(0, 0), (100, 1), (650, 0), (1500, 1)]
              ∧ (t, some v) ∈ ([((0 : Int), some (2 : ℚ)), (300, none), (600, some 0),
                  (1500, some 1)] : List (Int × Option ℚ))))) :=
  ⟨⟨by decide, by decide⟩,
    c5_resample_join [(0, 0), (100, 1), (650, 0), (1500, 1)]
      [((0 : Int), some (2 : ℚ)), (300, none), (600, some 0), (1500, some 1)]
      (by decide) (by decide)⟩
